import Mathlib

/-!
Shallow embedding of the SmartNotes storage engine (`src/app/database.py`).

The SQLite schema and the operations of class `Database` are modelled as pure
Lean functions over an explicit `DB` state.  Machine behaviour fixed by the
source and by SQLite semantics that the model mirrors:

* `folders.name` and `tags.name` are `TEXT UNIQUE` with the default BINARY
  collation, so uniqueness and `=` lookups are case-sensitive;
* `notes.folder_id` has `ON DELETE SET NULL` and `PRAGMA foreign_keys=ON`;
  the resulting row updates fire the `notes_au` trigger;
* the triggers `notes_ai` / `notes_ad` / `notes_au` keep the external-content
  FTS table `notes_fts` in sync (insert appends, delete removes, update is
  remove-then-append);
* `note_tags` has primary key `(note_id, tag_id)` and cascades on note/tag
  deletion;
* timestamps are `int(time.time())`, passed here as an explicit `now : Nat`;
* a failed statement (`sqlite3.IntegrityError` / `OperationalError`) leaves
  the store unchanged, modelled with `Except SqlError`.
-/

namespace SmartNotes

/-- A row of the `folders` table. -/
structure Folder where
  id : Nat
  name : String
deriving DecidableEq

/-- A row of the `notes` table. -/
structure Note where
  id : Nat
  folder_id : Option Nat
  title : String
  content : String
  created_at : Nat
  updated_at : Nat
deriving DecidableEq

/-- A row of the `tags` table. -/
structure Tag where
  id : Nat
  name : String
deriving DecidableEq

/-- A row of the derived full-text index `notes_fts` (external content table). -/
structure FtsEntry where
  rowid : Nat
  title : String
  content : String
deriving DecidableEq

/-- One dict of the list returned by `Database.search_notes`. -/
structure NoteResult where
  id : Nat
  title : String
  content : String
  folder_id : Option Nat
  updated_at : Nat
  tags : List Tag
deriving DecidableEq

/-- The sqlite3 exception classes raised by the statements the model covers. -/
inductive SqlError where
  | integrityError
  | operationalError
deriving DecidableEq

/-- The whole store: the four tables, the derived index, and the
`AUTOINCREMENT` counters (SQLite never reuses an autoincrement id). -/
structure DB where
  folders : List Folder
  notes : List Note
  tags : List Tag
  note_tags : List (Nat × Nat)
  notes_fts : List FtsEntry
  next_folder_id : Nat
  next_note_id : Nat
  next_tag_id : Nat
deriving DecidableEq

/-- The store `_init_schema` builds on a fresh database file. -/
def initDB : DB :=
  { folders := [], notes := [], tags := [], note_tags := [], notes_fts := []
    next_folder_id := 1, next_note_id := 1, next_tag_id := 1 }

/-! ### Character-level string helpers

`COLLATE NOCASE` folds only ASCII `A`-`Z`, and the tag names fed to
`str.strip()` are plain text; both are modelled at the character level so
that every definition evaluates by kernel reduction. -/

/-- ASCII case folding (what `COLLATE NOCASE` applies). -/
def lowerChar (c : Char) : Char :=
  if 'A' ≤ c ∧ c ≤ 'Z' then Char.ofNat (c.toNat + 32) else c

/-- A string under ASCII case folding. -/
def lowerStr (s : String) : String := ⟨s.data.map lowerChar⟩

/-- Whitespace as stripped by `str.strip()`. -/
def isSpaceChar (c : Char) : Bool :=
  c = ' ' || c = '\t' || c = '\n' || c = '\r' || c = '\x0b' || c = '\x0c'

/-- `str.strip()`: drop leading and trailing whitespace. -/
def stripStr (s : String) : String :=
  ⟨((s.data.dropWhile isSpaceChar).reverse.dropWhile isSpaceChar).reverse⟩

/-! ### Orderings used by `ORDER BY` clauses -/

/-- `ORDER BY n.updated_at DESC` (ties keep a stable order in the model). -/
def updDesc (a b : Note) : Prop := b.updated_at ≤ a.updated_at

instance : DecidableRel updDesc := fun a b =>
  inferInstanceAs (Decidable (b.updated_at ≤ a.updated_at))

instance : IsTotal Note updDesc := ⟨fun a b => le_total b.updated_at a.updated_at⟩

instance : IsTrans Note updDesc := ⟨fun _ _ _ h1 h2 => le_trans h2 h1⟩

/-- `ORDER BY t.name COLLATE NOCASE` (NOCASE folds ASCII case, as `toLower`). -/
def tagNameLe (a b : Tag) : Prop := lowerStr a.name ≤ lowerStr b.name

instance : DecidableRel tagNameLe := fun a b =>
  inferInstanceAs (Decidable (lowerStr a.name ≤ lowerStr b.name))

instance : IsTotal Tag tagNameLe := ⟨fun a b => le_total (lowerStr a.name) (lowerStr b.name)⟩

instance : IsTrans Tag tagNameLe := ⟨fun _ _ _ h1 h2 => le_trans h1 h2⟩

/-- `ORDER BY name COLLATE NOCASE` on folders. -/
def folderNameLe (a b : Folder) : Prop := lowerStr a.name ≤ lowerStr b.name

instance : DecidableRel folderNameLe := fun a b =>
  inferInstanceAs (Decidable (lowerStr a.name ≤ lowerStr b.name))

instance : IsTotal Folder folderNameLe := ⟨fun a b => le_total (lowerStr a.name) (lowerStr b.name)⟩

instance : IsTrans Folder folderNameLe := ⟨fun _ _ _ h1 h2 => le_trans h1 h2⟩

/-! ### The full-text query built by `search_notes`

`search_notes` escapes the caller's query with `query.replace('"', '""')` and
wraps it as `f'"{clean_q}"'` (with a trailing `*` when the query has no
space).  `ftsPhraseBody` is the FTS5 parser restricted to the fragment those
strings live in: one double-quoted string (interior quotes doubled) optionally
followed by `*`.  A string outside the fragment is modelled as a construction
error, which SQLite surfaces as `sqlite3.OperationalError`. -/

/-- `str.replace('"', '""')` at the character level. -/
def escQuotes : List Char → List Char
  | [] => []
  | c :: rest => if c = '"' then '"' :: '"' :: escQuotes rest else c :: escQuotes rest

/-- The MATCH argument `search_notes` builds: `f'"{clean_q}"'`, plus `*`
when the cleaned query contains no space. -/
def buildFtsQuery (q : String) : String :=
  let clean := escQuotes q.data
  if clean.contains ' ' then ⟨'"' :: (clean ++ ['"'])⟩
  else ⟨'"' :: (clean ++ ['"', '*'])⟩

/-- Scanner for the rest of a quoted FTS5 string (the opening `"` already
consumed): `""` is an escaped quote, a lone closing `"` may be followed only
by the prefix star. -/
def ftsPhraseBody : List Char → Bool
  | [] => false
  | c :: rest =>
    if c = '"' then
      match rest with
      | [] => true
      | c2 :: rest2 => if c2 = '"' then ftsPhraseBody rest2 else c2 == '*' && rest2.isEmpty
    else ftsPhraseBody rest

/-- Structural validity of a MATCH argument, within the quoted-phrase fragment
produced by the query builder. -/
def ftsQueryValid (s : String) : Bool :=
  match s.data with
  | [] => false
  | c :: rest => c == '"' && ftsPhraseBody rest

/-- Recover the phrase characters and the prefix-star flag from the body of a
valid query (garbage on invalid input, which `ftsExec` never executes). -/
def unescBody : List Char → List Char × Bool
  | [] => ([], false)
  | c :: rest =>
    if c = '"' then
      match rest with
      | [] => ([], false)
      | c2 :: rest2 =>
        if c2 = '"' then
          let r := unescBody rest2
          ('"' :: r.1, r.2)
        else ([], c2 == '*' && rest2.isEmpty)
    else
      let r := unescBody rest
      (c :: r.1, r.2)

/-- The unicode61 tokenizer, simplified: maximal alphanumeric runs, folded to
lower case. -/
def isTokChar (c : Char) : Bool := c.isAlpha || c.isDigit

/-- Split a character list into tokens (`cur` holds the reversed current run). -/
def tokenize : List Char → List Char → List (List Char)
  | [], cur => if cur.isEmpty then [] else [cur.reverse]
  | c :: rest, cur =>
    if isTokChar c then tokenize rest (lowerChar c :: cur)
    else if cur.isEmpty then tokenize rest [] else cur.reverse :: tokenize rest []

/-- Character-list version of `startsWith`, for the trailing prefix token. -/
def tokStarts : List Char → List Char → Bool
  | [], _ => true
  | _ :: _, [] => false
  | p :: ps, t :: ts => p == t && tokStarts ps ts

/-- Does the phrase match at the head of the token list?  With the star flag,
the last phrase token only has to be a prefix of the document token. -/
def phraseAt : List (List Char) → List (List Char) → Bool → Bool
  | [], _, _ => true
  | [q], t :: _, true => tokStarts q t
  | q :: qs, t :: ts, star => q == t && phraseAt qs ts star
  | _ :: _, [], _ => false

/-- Does the phrase match anywhere in the token list? -/
def phraseIn (qs : List (List Char)) (star : Bool) : List (List Char) → Bool
  | [] => phraseAt qs [] star
  | t :: ts => phraseAt qs (t :: ts) star || phraseIn qs star ts

/-- Does an index entry satisfy the MATCH argument `q`?  A phrase matches
within a single column; a phrase with no token matches no row. -/
def ftsEntryMatches (q : String) (e : FtsEntry) : Bool :=
  let parsed :=
    match q.data with
    | [] => (([] : List Char), false)
    | c :: rest => if c = '"' then unescBody rest else ([], false)
  let qtoks := tokenize parsed.1 []
  !qtoks.isEmpty &&
    (phraseIn qtoks parsed.2 (tokenize e.title.data []) ||
     phraseIn qtoks parsed.2 (tokenize e.content.data []))

/-- Rowids returned by `SELECT rowid FROM notes_fts WHERE notes_fts MATCH ?`. -/
def ftsMatchRowids (entries : List FtsEntry) (q : String) : List Nat :=
  (entries.filter (ftsEntryMatches q)).map FtsEntry.rowid

/-- Executing the MATCH: a structurally invalid argument raises
`sqlite3.OperationalError` instead of producing rows. -/
def ftsExec (entries : List FtsEntry) (q : String) : Except SqlError (List Nat) :=
  if ftsQueryValid q then .ok (ftsMatchRowids entries q) else .error .operationalError

/-- Effect of the `notes_au` trigger (and of `notes_ai` after `notes_ad`):
drop the entry for rowid `i`, append the fresh one. -/
def ftsReplace (fts : List FtsEntry) (i : Nat) (t c : String) : List FtsEntry :=
  fts.filter (fun e => e.rowid != i) ++ [⟨i, t, c⟩]

/-! ### Entity-store operations (`Database` methods) -/

/-- `PRAGMA foreign_keys=ON`: a `folder_id` value must reference a folder. -/
def folderIdOk (db : DB) : Option Nat → Bool
  | none => true
  | some fid => db.folders.any (fun f => f.id == fid)

/-- `list_folders`: `SELECT id, name FROM folders ORDER BY name COLLATE NOCASE`. -/
def list_folders (db : DB) : List Folder :=
  List.insertionSort folderNameLe db.folders

/-- `create_folder`: `INSERT INTO folders(name) VALUES(?)`; the `UNIQUE`
(BINARY collation) constraint raises `IntegrityError` on an exact-name
collision. -/
def create_folder (db : DB) (name : String) : Except SqlError (DB × Nat) :=
  if db.folders.any (fun f => f.name == name) then .error .integrityError
  else
    .ok ({ db with folders := db.folders ++ [⟨db.next_folder_id, name⟩]
                   next_folder_id := db.next_folder_id + 1 }, db.next_folder_id)

/-- `delete_folder`: `DELETE FROM folders WHERE id=?`; `ON DELETE SET NULL`
clears `folder_id` on referencing notes, and those row updates fire the
`notes_au` trigger on the index. -/
def delete_folder (db : DB) (fid : Nat) : DB :=
  let affected := db.notes.filter (fun n => n.folder_id == some fid)
  { db with
    folders := db.folders.filter (fun f => f.id != fid)
    notes := db.notes.map fun n =>
      if n.folder_id = some fid then { n with folder_id := none } else n
    notes_fts := affected.foldl (fun fts n => ftsReplace fts n.id n.title n.content) db.notes_fts }

/-- `create_note`: inserts `(folder_id, title, '', now, now)`; the `notes_ai`
trigger appends the index entry.  An invalid folder reference raises
`IntegrityError` and inserts nothing. -/
def create_note (db : DB) (folder_id : Option Nat) (title : String) (now : Nat) :
    Except SqlError (DB × Nat) :=
  if folderIdOk db folder_id then
    .ok ({ db with
            notes := db.notes ++ [⟨db.next_note_id, folder_id, title, "", now, now⟩]
            notes_fts := db.notes_fts ++ [⟨db.next_note_id, title, ""⟩]
            next_note_id := db.next_note_id + 1 }, db.next_note_id)
  else .error .integrityError

/-- `update_note`: `UPDATE notes SET title=?, content=?, folder_id=?,
updated_at=? WHERE id=?`; when a row is updated the `notes_au` trigger
replaces its index entry; with no matching row nothing happens. -/
def update_note (db : DB) (nid : Nat) (title content : String) (folder_id : Option Nat)
    (now : Nat) : Except SqlError DB :=
  if db.notes.any (fun n => n.id == nid) then
    if folderIdOk db folder_id then
      .ok { db with
            notes := db.notes.map fun n =>
              if n.id = nid then
                { n with title := title, content := content
                         folder_id := folder_id, updated_at := now }
              else n
            notes_fts := ftsReplace db.notes_fts nid title content }
    else .error .integrityError
  else .ok db

/-- `delete_note`: `DELETE FROM notes WHERE id=?`; the `notes_ad` trigger
removes the index entry and `ON DELETE CASCADE` removes the note's links.
No sweep of now-unreferenced tags happens here. -/
def delete_note (db : DB) (nid : Nat) : DB :=
  { db with
    notes := db.notes.filter (fun n => n.id != nid)
    notes_fts := db.notes_fts.filter (fun e => e.rowid != nid)
    note_tags := db.note_tags.filter (fun p => p.1 != nid) }

/-- `move_note`: `UPDATE notes SET folder_id=?, updated_at=? WHERE id=?`,
with the same trigger effect as `update_note`. -/
def move_note (db : DB) (nid : Nat) (fid : Option Nat) (now : Nat) : Except SqlError DB :=
  match db.notes.find? (fun n => n.id == nid) with
  | none => .ok db
  | some n =>
    if folderIdOk db fid then
      .ok { db with
            notes := db.notes.map fun m =>
              if m.id = nid then { m with folder_id := fid, updated_at := now } else m
            notes_fts := ftsReplace db.notes_fts nid n.title n.content }
    else .error .integrityError

/-! ### Tag lifecycle -/

/-- The tag-acquisition loop of `set_note_tags`: for each name, `INSERT INTO
tags(name)`; on the (exact-name) `IntegrityError`, `SELECT id FROM tags WHERE
name=?` and reuse that id.  Returns the new tags table, the next
autoincrement id, and the collected tag ids in order. -/
def acquireTags (tags : List Tag) (next : Nat) : List String → List Tag × Nat × List Nat
  | [] => (tags, next, [])
  | name :: rest =>
    match tags.find? (fun t => t.name == name) with
    | some t =>
      let r := acquireTags tags next rest
      (r.1, r.2.1, t.id :: r.2.2)
    | none =>
      let r := acquireTags (tags ++ [(⟨next, name⟩ : Tag)]) (next + 1) rest
      (r.1, r.2.1, next :: r.2.2)

/-- The link loop: `INSERT OR IGNORE INTO note_tags(note_id, tag_id)` for each
collected tag id, on top of the base left after `DELETE FROM note_tags WHERE
note_id=?`. -/
def insertLinks (nid : Nat) (tids : List Nat) (base : List (Nat × Nat)) : List (Nat × Nat) :=
  tids.foldl (fun acc tid => if (nid, tid) ∈ acc then acc else acc ++ [(nid, tid)]) base

/-- `clean_unused_tags`: `DELETE FROM tags WHERE id NOT IN (SELECT tag_id FROM
note_tags)`. -/
def clean_unused_tags (db : DB) : DB :=
  { db with tags := db.tags.filter (fun t => db.note_tags.any (fun p => p.2 == t.id)) }

/-- `set_note_tags`: trim the names and drop empties, acquire a tag id per
name, replace the note's link set, then sweep unused tags.  Linking a
nonexistent note violates the `note_tags.note_id` foreign key; the transaction
is never committed, so the store is unchanged. -/
def set_note_tags (db : DB) (nid : Nat) (tag_names : List String) : Except SqlError DB :=
  let names := (tag_names.map stripStr).filter (fun n => n != "")
  if db.notes.any (fun n => n.id == nid) then
    let acq := acquireTags db.tags db.next_tag_id names
    let base := db.note_tags.filter (fun p => p.1 != nid)
    .ok (clean_unused_tags
      { db with tags := acq.1, next_tag_id := acq.2.1, note_tags := insertLinks nid acq.2.2 base })
  else .error .integrityError

/-- `all_tags`: every tag with `COALESCE(COUNT(nt.note_id), 0)` over the left
join with its links, ordered by name `COLLATE NOCASE`. -/
def all_tags (db : DB) : List (Tag × Nat) :=
  (List.insertionSort tagNameLe db.tags).map fun t =>
    (t, (db.note_tags.filter (fun p => p.2 == t.id)).length)

/-- `list_note_tags` and the per-result enrichment query of `search_notes`:
the note's tags ordered by name `COLLATE NOCASE`. -/
def noteTagsSorted (db : DB) (nid : Nat) : List Tag :=
  List.insertionSort tagNameLe
    (db.tags.filter fun t => db.note_tags.any fun p => p.1 == nid && p.2 == t.id)

/-! ### Search planner (`search_notes`) -/

/-- The `HAVING COUNT(DISTINCT nt.tag_id) = len(tag_ids)` subquery, decided
per note: the distinct tag ids among the note's links that fall in `tag_ids`
must number exactly `tag_ids.length`. -/
def tagClausePass (db : DB) (tag_ids : List Nat) (nid : Nat) : Bool :=
  (((db.note_tags.filter fun p => p.1 == nid && tag_ids.contains p.2).map
      Prod.snd).dedup).length == tag_ids.length

/-- The spec's wording of the tag filter ("notes that carry all given tag
identifiers"), for refinement against `tagClausePass`. -/
def tagAllPass (db : DB) (tag_ids : List Nat) (nid : Nat) : Bool :=
  tag_ids.all fun t => db.note_tags.any fun p => p.1 == nid && p.2 == t

/-- The conjoined WHERE clauses, given the rowids produced by the MATCH
subquery (`none` when the query string was empty and no text clause was
added). -/
def searchPass (db : DB) (folder_id : Option Nat) (textIds : Option (List Nat))
    (tag_ids : List Nat) (n : Note) : Bool :=
  (match folder_id with
   | none => true
   | some fid => n.folder_id == some fid) &&
  ((match textIds with
    | none => true
    | some ids => ids.contains n.id) &&
   (tag_ids.isEmpty || tagClausePass db tag_ids n.id))

/-- Same clauses with the spec's tag filter. -/
def searchPassSpec (db : DB) (folder_id : Option Nat) (textIds : Option (List Nat))
    (tag_ids : List Nat) (n : Note) : Bool :=
  (match folder_id with
   | none => true
   | some fid => n.folder_id == some fid) &&
  ((match textIds with
    | none => true
    | some ids => ids.contains n.id) &&
   (tag_ids.isEmpty || tagAllPass db tag_ids n.id))

/-- `ORDER BY n.updated_at DESC LIMIT 1000`, then the per-row tag enrichment. -/
def runSearch (db : DB) (pass : Note → Bool) : List NoteResult :=
  ((List.insertionSort updDesc (db.notes.filter pass)).take 1000).map fun n =>
    ⟨n.id, n.title, n.content, n.folder_id, n.updated_at, noteTagsSorted db n.id⟩

/-- The text clause: skipped for an empty query string (`if query:`),
otherwise the MATCH subquery on the built argument. -/
def textClause (db : DB) (query : String) : Except SqlError (Option (List Nat)) :=
  if query = "" then .ok none
  else (ftsExec db.notes_fts (buildFtsQuery query)).map some

/-- `search_notes` without its `try/except`: the only failing statement is
the MATCH execution. -/
def search_notes_exc (db : DB) (folder_id : Option Nat) (query : String)
    (tag_ids : List Nat) : Except SqlError (List NoteResult) :=
  match textClause db query with
  | .error e => .error e
  | .ok textIds => .ok (runSearch db (searchPass db folder_id textIds tag_ids))

/-- `search_notes` as callers see it: `except sqlite3.OperationalError:
return []`. -/
def search_notes (db : DB) (folder_id : Option Nat) (query : String)
    (tag_ids : List Nat) : List NoteResult :=
  match search_notes_exc db folder_id query tag_ids with
  | .ok r => r
  | .error _ => []

/-- The search pipeline with the spec's tag filter, for refinement. -/
def search_notes_spec (db : DB) (folder_id : Option Nat) (query : String)
    (tag_ids : List Nat) : List NoteResult :=
  match textClause db query with
  | .error _ => []
  | .ok textIds => runSearch db (searchPassSpec db folder_id textIds tag_ids)

/-! ### Operation sequences -/

/-- One mutating call against the store. -/
inductive Op where
  | createFolder (name : String)
  | deleteFolder (fid : Nat)
  | createNote (folder_id : Option Nat) (title : String) (now : Nat)
  | updateNote (nid : Nat) (title content : String) (folder_id : Option Nat) (now : Nat)
  | deleteNote (nid : Nat)
  | setNoteTags (nid : Nat) (names : List String)
  | moveNote (nid : Nat) (fid : Option Nat) (now : Nat)

/-- Apply one call; a raised error leaves the store untouched. -/
def applyOp (db : DB) : Op → DB
  | .createFolder name =>
    match create_folder db name with
    | .ok r => r.1
    | .error _ => db
  | .deleteFolder fid => delete_folder db fid
  | .createNote fid title now =>
    match create_note db fid title now with
    | .ok r => r.1
    | .error _ => db
  | .updateNote nid title content fid now =>
    match update_note db nid title content fid now with
    | .ok r => r
    | .error _ => db
  | .deleteNote nid => delete_note db nid
  | .setNoteTags nid names =>
    match set_note_tags db nid names with
    | .ok r => r
    | .error _ => db
  | .moveNote nid fid now =>
    match move_note db nid fid now with
    | .ok r => r
    | .error _ => db

/-- The store after a finite call sequence against a fresh database. -/
def applyOps (ops : List Op) : DB := ops.foldl applyOp initDB

/-- The index invariant: every live note has exactly one index entry with its
rowid, and that entry holds the note's current title and content. -/
def ftsOne (db : DB) : Prop :=
  ∀ n ∈ db.notes, db.notes_fts.filter (fun e => e.rowid == n.id) =
    [⟨n.id, n.title, n.content⟩]

/-- No index entry outlives its note: every entry's rowid is a live note's id. -/
def ftsLive (db : DB) : Prop :=
  ∀ e ∈ db.notes_fts, ∃ n ∈ db.notes, n.id = e.rowid

/-- The inductive well-formedness of a reachable store. -/
structure WF (db : DB) : Prop where
  notes_lt : ∀ n ∈ db.notes, n.id < db.next_note_id
  fts_one : ftsOne db
  fts_live : ftsLive db
  tags_lt : ∀ t ∈ db.tags, t.id < db.next_tag_id
  tags_names : db.tags.Pairwise fun a b => a.name ≠ b.name

/-! ## Helper lemmas -/

theorem escQuotes_cons (c : Char) (rest : List Char) :
    escQuotes (c :: rest) =
      if c = '"' then '"' :: '"' :: escQuotes rest else c :: escQuotes rest := by
  rw [escQuotes.eq_def]

theorem ftsPhraseBody_cons (c : Char) (rest : List Char) :
    ftsPhraseBody (c :: rest) =
      if c = '"' then
        (match rest with
         | [] => true
         | c2 :: rest2 =>
           if c2 = '"' then ftsPhraseBody rest2 else c2 == '*' && rest2.isEmpty)
      else ftsPhraseBody rest := by
  rw [ftsPhraseBody.eq_def]

theorem ftsQueryValid_mk (c : Char) (l : List Char) :
    ftsQueryValid ⟨c :: l⟩ = (c == '"' && ftsPhraseBody l) := rfl

theorem ftsPhraseBody_escQuotes (l : List Char) :
    ftsPhraseBody (escQuotes l ++ ['"']) = true ∧
    ftsPhraseBody (escQuotes l ++ ['"', '*']) = true := by
  induction l with
  | nil => exact ⟨rfl, rfl⟩
  | cons c t ih =>
    by_cases hc : c = '"'
    · subst hc
      exact ⟨by simpa [escQuotes_cons, ftsPhraseBody_cons] using ih.1,
             by simpa [escQuotes_cons, ftsPhraseBody_cons] using ih.2⟩
    · exact ⟨by simpa [escQuotes_cons, ftsPhraseBody_cons, hc] using ih.1,
             by simpa [escQuotes_cons, ftsPhraseBody_cons, hc] using ih.2⟩

theorem ftsQueryValid_buildFtsQuery (q : String) :
    ftsQueryValid (buildFtsQuery q) = true := by
  have h1 := (ftsPhraseBody_escQuotes q.data).1
  have h2 := (ftsPhraseBody_escQuotes q.data).2
  unfold buildFtsQuery
  cases h : (escQuotes q.data).contains ' '
  · simp only [h]
    simpa [ftsQueryValid_mk] using h2
  · simp only [h]
    simpa [ftsQueryValid_mk] using h1

/-- The text clause never raises: the escaped MATCH argument is always
structurally valid. -/
theorem textClause_eq (db : DB) (q : String) :
    textClause db q =
      .ok (if q = "" then none
           else some (ftsMatchRowids db.notes_fts (buildFtsQuery q))) := by
  unfold textClause ftsExec
  by_cases h : q = ""
  · simp [h]
  · simp [h, ftsQueryValid_buildFtsQuery, Except.map]

/-- `search_notes` always reaches the happy path of its pipeline. -/
theorem search_notes_eq_run (db : DB) (fid : Option Nat) (q : String) (tids : List Nat) :
    search_notes db fid q tids =
      runSearch db (searchPass db fid
        (if q = "" then none
         else some (ftsMatchRowids db.notes_fts (buildFtsQuery q))) tids) := by
  unfold search_notes search_notes_exc
  rw [textClause_eq]

theorem filter_rowid_of_ne (fts : List FtsEntry) (i j : Nat) (hij : j ≠ i) :
    (fts.filter fun e => e.rowid != i).filter (fun e => e.rowid == j) =
      fts.filter (fun e => e.rowid == j) := by
  rw [List.filter_filter]
  apply List.filter_congr
  intro e _
  by_cases he : e.rowid = j
  · simp [he, hij, bne_iff_ne]
  · simp [he]

theorem filter_ftsReplace_self (fts : List FtsEntry) (i : Nat) (t c : String) :
    (ftsReplace fts i t c).filter (fun e => e.rowid == i) = [⟨i, t, c⟩] := by
  unfold ftsReplace
  rw [List.filter_append]
  have h0 : (fts.filter fun e => e.rowid != i).filter (fun e => e.rowid == i) = [] := by
    apply List.filter_eq_nil_iff.mpr
    intro e he
    have hne := List.of_mem_filter he
    simp only [bne_iff_ne, ne_eq] at hne
    simp [hne]
  rw [h0]
  simp

theorem filter_ftsReplace_other (fts : List FtsEntry) (i : Nat) (t c : String)
    (j : Nat) (hij : j ≠ i) :
    (ftsReplace fts i t c).filter (fun e => e.rowid == j) =
      fts.filter (fun e => e.rowid == j) := by
  unfold ftsReplace
  rw [List.filter_append, filter_rowid_of_ne fts i j hij]
  have h1 : ([⟨i, t, c⟩] : List FtsEntry).filter (fun e => e.rowid == j) = [] := by
    have : (i == j) = false := beq_eq_false_iff_ne.mpr fun he => hij he.symm
    simp [this]
  rw [h1, List.append_nil]

theorem dedup_length_lt {α : Type} [DecidableEq α] (l : List α) (h : ¬ l.Nodup) :
    l.dedup.length < l.length := by
  rcases Nat.lt_or_ge l.dedup.length l.length with h1 | h1
  · exact h1
  · exact absurd (List.dedup_eq_self.mp (List.Sublist.eq_of_length (List.dedup_sublist l)
      (Nat.le_antisymm (List.Sublist.length_le (List.dedup_sublist l)) h1))) h

/-- Membership in the projected link rows the HAVING clause counts. -/
theorem mem_tagMatches (db : DB) (nid : Nat) (tids : List Nat) (x : Nat) :
    (x ∈ (db.note_tags.filter fun p => p.1 == nid && tids.contains p.2).map Prod.snd) ↔
      ((nid, x) ∈ db.note_tags ∧ x ∈ tids) := by
  simp only [List.mem_map, List.mem_filter, Bool.and_eq_true, beq_iff_eq, List.elem_iff]
  constructor
  · rintro ⟨⟨a, b⟩, ⟨hm, h1, h2⟩, rfl⟩
    have ha : a = nid := by simpa using h1
    subst ha
    exact ⟨hm, h2⟩
  · rintro ⟨hm, hx⟩
    exact ⟨(nid, x), ⟨hm, rfl, hx⟩, rfl⟩

/-- With no duplicate in `tag_ids`, the cardinality test of the HAVING clause
is exactly "the note carries every given tag id". -/
theorem tagClausePass_eq_tagAllPass (db : DB) (tids : List Nat) (nid : Nat)
    (h : tids.Nodup) : tagClausePass db tids nid = tagAllPass db tids nid := by
  apply Bool.coe_iff_coe.mp
  unfold tagClausePass tagAllPass
  simp only [beq_iff_eq, List.all_eq_true, List.any_eq_true, Bool.and_eq_true]
  have hDnd : ((db.note_tags.filter fun p => p.1 == nid && tids.contains p.2).map
      Prod.snd).dedup.Nodup := List.nodup_dedup _
  have hDsub : ∀ x ∈ ((db.note_tags.filter fun p => p.1 == nid && tids.contains p.2).map
      Prod.snd).dedup, x ∈ tids :=
    fun x hx => ((mem_tagMatches db nid tids x).mp (List.mem_dedup.mp hx)).2
  have hsub1 : ((db.note_tags.filter fun p => p.1 == nid && tids.contains p.2).map
      Prod.snd).dedup.toFinset ⊆ tids.toFinset :=
    fun a ha => List.mem_toFinset.mpr (hDsub a (List.mem_toFinset.mp ha))
  constructor
  · intro hlen x hx
    have hcards : tids.toFinset.card ≤ ((db.note_tags.filter fun p =>
        p.1 == nid && tids.contains p.2).map Prod.snd).dedup.toFinset.card := by
      rw [List.card_toFinset, List.card_toFinset, hDnd.dedup, h.dedup, hlen]
    have heq := Finset.eq_of_subset_of_card_le hsub1 hcards
    have hxD := List.mem_toFinset.mp (heq ▸ List.mem_toFinset.mpr hx)
    have hmem := (mem_tagMatches db nid tids x).mp (List.mem_dedup.mp hxD)
    exact ⟨(nid, x), hmem.1, rfl, rfl⟩
  · intro hall
    have hsub2 : tids.toFinset ⊆ ((db.note_tags.filter fun p =>
        p.1 == nid && tids.contains p.2).map Prod.snd).dedup.toFinset := by
      intro a ha
      have haT := List.mem_toFinset.mp ha
      obtain ⟨p, hp, h1, h2⟩ := hall a haT
      have hpa : (nid, a) ∈ db.note_tags := by
        have hpe : p = (nid, a) := Prod.ext_iff.mpr ⟨h1, h2⟩
        rwa [hpe] at hp
      exact List.mem_toFinset.mpr (List.mem_dedup.mpr
        ((mem_tagMatches db nid tids a).mpr ⟨hpa, haT⟩))
    have hfeq : ((db.note_tags.filter fun p => p.1 == nid && tids.contains p.2).map
        Prod.snd).dedup.toFinset = tids.toFinset := Finset.Subset.antisymm hsub1 hsub2
    calc ((db.note_tags.filter fun p => p.1 == nid && tids.contains p.2).map
        Prod.snd).dedup.length
        = ((db.note_tags.filter fun p => p.1 == nid && tids.contains p.2).map
            Prod.snd).dedup.toFinset.card := by rw [List.card_toFinset, hDnd.dedup]
      _ = tids.toFinset.card := by rw [hfeq]
      _ = tids.length := by rw [List.card_toFinset, h.dedup]

/-- With a duplicated tag id the cardinality test is unsatisfiable. -/
theorem tagClausePass_of_dup (db : DB) (tids : List Nat) (nid : Nat)
    (h : ¬ tids.Nodup) : tagClausePass db tids nid = false := by
  unfold tagClausePass
  apply beq_eq_false_iff_ne.mpr
  intro hlen
  have hDnd : ((db.note_tags.filter fun p => p.1 == nid && tids.contains p.2).map
      Prod.snd).dedup.Nodup := List.nodup_dedup _
  have hsub1 : ((db.note_tags.filter fun p => p.1 == nid && tids.contains p.2).map
      Prod.snd).dedup.toFinset ⊆ tids.toFinset := fun a ha =>
    List.mem_toFinset.mpr
      (((mem_tagMatches db nid tids a).mp (List.mem_dedup.mp (List.mem_toFinset.mp ha))).2)
  have hlt : ((db.note_tags.filter fun p => p.1 == nid && tids.contains p.2).map
      Prod.snd).dedup.length < tids.length := by
    calc ((db.note_tags.filter fun p => p.1 == nid && tids.contains p.2).map
        Prod.snd).dedup.length
        = ((db.note_tags.filter fun p => p.1 == nid && tids.contains p.2).map
            Prod.snd).dedup.toFinset.card := by rw [List.card_toFinset, hDnd.dedup]
      _ ≤ tids.toFinset.card := Finset.card_le_card hsub1
      _ = tids.dedup.length := List.card_toFinset tids
      _ < tids.length := dedup_length_lt tids h
  exact absurd hlen (Nat.ne_of_lt hlt)

/-- The tag-acquisition loop keeps ids bounded and names exactly unique,
never drops an existing tag, and reuses the id of any existing tag whose name
occurs in the list. -/
theorem acquireTags_spec (names : List String) : ∀ (tags : List Tag) (next : Nat),
    (∀ t ∈ tags, t.id < next) → (tags.Pairwise fun a b => a.name ≠ b.name) →
    (∀ t ∈ (acquireTags tags next names).1, t.id < (acquireTags tags next names).2.1) ∧
    ((acquireTags tags next names).1.Pairwise fun a b => a.name ≠ b.name) ∧
    (∀ t ∈ tags, t ∈ (acquireTags tags next names).1) ∧
    (∀ t ∈ tags, t.name ∈ names → t.id ∈ (acquireTags tags next names).2.2) := by
  induction names with
  | nil =>
    intro tags next hlt hnd
    exact ⟨hlt, hnd, fun t ht => ht, fun t _ hmem => absurd hmem (List.not_mem_nil _)⟩
  | cons name rest ih =>
    intro tags next hlt hnd
    cases hfind : tags.find? (fun t => t.name == name) with
    | some u =>
      have hu_mem : u ∈ tags := List.mem_of_find?_eq_some hfind
      have hu_name : u.name = name := by
        have := List.find?_some hfind
        simpa using this
      have hih := ih tags next hlt hnd
      refine ⟨?_, ?_, ?_, ?_⟩ <;>
        simp only [acquireTags, hfind]
      · exact hih.1
      · exact hih.2.1
      · exact hih.2.2.1
      · intro t ht hmem
        rcases List.mem_cons.mp hmem with heq | hrest
        · have hmapnd : (tags.map Tag.name).Nodup := List.pairwise_map.mpr hnd
          have : t = u :=
            List.inj_on_of_nodup_map hmapnd ht hu_mem (by rw [heq, hu_name])
          rw [this]
          exact List.mem_cons_self _ _
        · exact List.mem_cons_of_mem _ (hih.2.2.2 t ht hrest)
    | none =>
      have hfresh : ∀ x ∈ tags, x.name ≠ name := by
        intro x hx
        have := List.find?_eq_none.mp hfind x hx
        simpa using this
      have hlt' : ∀ t ∈ tags ++ [(⟨next, name⟩ : Tag)], t.id < next + 1 := by
        intro t ht
        rcases List.mem_append.mp ht with h | h
        · exact Nat.lt_succ_of_lt (hlt t h)
        · simp at h
          rw [h]
          exact Nat.lt_succ_self next
      have hnd' : (tags ++ [(⟨next, name⟩ : Tag)]).Pairwise fun a b => a.name ≠ b.name := by
        rw [List.pairwise_append]
        refine ⟨hnd, List.pairwise_singleton _ _, ?_⟩
        intro a ha b hb
        simp at hb
        rw [hb]
        exact hfresh a ha
      have hih := ih (tags ++ [(⟨next, name⟩ : Tag)]) (next + 1) hlt' hnd'
      refine ⟨?_, ?_, ?_, ?_⟩ <;>
        simp only [acquireTags, hfind]
      · exact hih.1
      · exact hih.2.1
      · exact fun t ht => hih.2.2.1 t (List.mem_append_left _ ht)
      · intro t ht hmem
        rcases List.mem_cons.mp hmem with heq | hrest
        · exact absurd heq (hfresh t ht)
        · exact List.mem_cons_of_mem _
            (hih.2.2.2 t (List.mem_append_left _ ht) hrest)

/-- `INSERT OR IGNORE` never removes an existing row. -/
theorem insertLinks_mem_base (nid : Nat) (tids : List Nat) :
    ∀ (base : List (Nat × Nat)) (x : Nat × Nat), x ∈ base → x ∈ insertLinks nid tids base := by
  induction tids with
  | nil => exact fun base x hx => hx
  | cons t ts ih =>
    intro base x hx
    show x ∈ insertLinks nid ts (if (nid, t) ∈ base then base else base ++ [(nid, t)])
    apply ih
    by_cases h : (nid, t) ∈ base
    · simpa [h] using hx
    · simp only [h, if_false]
      exact List.mem_append_left _ hx

/-- Every collected tag id ends up linked to the note. -/
theorem insertLinks_mem_of_mem (nid : Nat) (tids : List Nat) :
    ∀ (base : List (Nat × Nat)) (tid : Nat), tid ∈ tids →
      (nid, tid) ∈ insertLinks nid tids base := by
  induction tids with
  | nil => exact fun _ _ h => absurd h (List.not_mem_nil _)
  | cons t ts ih =>
    intro base tid hmem
    rcases List.mem_cons.mp hmem with heq | h
    · subst heq
      show (nid, tid) ∈ insertLinks nid ts (if (nid, tid) ∈ base then base else base ++ [(nid, tid)])
      apply insertLinks_mem_base
      by_cases hb : (nid, tid) ∈ base
      · simp [hb]
      · simp [hb]
    · exact ih _ tid h

/-- Two notes with the same id agree on title and content wherever the index
invariant holds (their index singleton is the same list). -/
theorem fts_agree (notes : List Note) (fts : List FtsEntry)
    (h1 : ∀ n ∈ notes, fts.filter (fun e => e.rowid == n.id) = [⟨n.id, n.title, n.content⟩])
    {m n : Note} (hm : m ∈ notes) (hn : n ∈ notes) (hid : m.id = n.id) :
    m.title = n.title ∧ m.content = n.content := by
  have e1 := h1 m hm
  have e2 := h1 n hn
  rw [hid, e2] at e1
  simp only [List.cons.injEq, FtsEntry.mk.injEq, and_true] at e1
  exact ⟨e1.2.1.symm, e1.2.2.symm⟩

/-- Replaying the `notes_au` trigger over any selection of live notes (with
their current title and content) preserves both index properties. -/
theorem ftsProps_fold (notes : List Note) (l : List Note) :
    ∀ (fts : List FtsEntry),
    (∀ n ∈ notes, fts.filter (fun e => e.rowid == n.id) = [⟨n.id, n.title, n.content⟩]) →
    (∀ e ∈ fts, ∃ n ∈ notes, n.id = e.rowid) →
    (∀ x ∈ l, x ∈ notes) →
    (∀ n ∈ notes,
      (l.foldl (fun f x => ftsReplace f x.id x.title x.content) fts).filter
        (fun e => e.rowid == n.id) = [⟨n.id, n.title, n.content⟩]) ∧
    (∀ e ∈ l.foldl (fun f x => ftsReplace f x.id x.title x.content) fts,
      ∃ n ∈ notes, n.id = e.rowid) := by
  induction l with
  | nil => exact fun fts h1 h2 _ => ⟨h1, h2⟩
  | cons x xs ih =>
    intro fts h1 h2 hl
    have hx : x ∈ notes := hl x (List.mem_cons_self _ _)
    have h1' : ∀ n ∈ notes, (ftsReplace fts x.id x.title x.content).filter
        (fun e => e.rowid == n.id) = [⟨n.id, n.title, n.content⟩] := by
      intro n hn
      by_cases hid : n.id = x.id
      · rw [hid, filter_ftsReplace_self]
        have hag := fts_agree notes fts h1 hn hx hid
        rw [hag.1, hag.2]
      · rw [filter_ftsReplace_other _ _ _ _ _ hid]
        exact h1 n hn
    have h2' : ∀ e ∈ ftsReplace fts x.id x.title x.content, ∃ n ∈ notes, n.id = e.rowid := by
      intro e he
      unfold ftsReplace at he
      rcases List.mem_append.mp he with hh | hh
      · exact h2 e (List.mem_of_mem_filter hh)
      · simp only [List.mem_singleton] at hh
        subst hh
        exact ⟨x, hx, rfl⟩
    exact ih (ftsReplace fts x.id x.title x.content) h1' h2'
      (fun y hy => hl y (List.mem_cons_of_mem _ hy))

theorem wf_initDB : WF initDB := by
  constructor <;> simp [initDB, ftsOne, ftsLive]

theorem wf_createFolder (db : DB) (name : String) (wf : WF db) :
    WF (applyOp db (.createFolder name)) := by
  cases h : (db.folders.any fun f => f.name == name) with
  | true =>
    simp only [applyOp, create_folder, h, if_true]
    exact wf
  | false =>
    simp only [applyOp, create_folder, h, Bool.false_eq_true, if_false]
    exact ⟨wf.notes_lt, wf.fts_one, wf.fts_live, wf.tags_lt, wf.tags_names⟩

theorem wf_deleteNote (db : DB) (nid : Nat) (wf : WF db) :
    WF (applyOp db (.deleteNote nid)) := by
  show WF (delete_note db nid)
  constructor
  · intro n hn
    exact wf.notes_lt n (List.mem_of_mem_filter hn)
  · intro n hn
    have hmem := List.mem_of_mem_filter hn
    have hne : n.id ≠ nid := by
      simpa [bne_iff_ne] using List.of_mem_filter hn
    show (db.notes_fts.filter fun e => e.rowid != nid).filter (fun e => e.rowid == n.id) = _
    rw [filter_rowid_of_ne db.notes_fts nid n.id hne]
    exact wf.fts_one n hmem
  · intro e he
    have hmem := List.mem_of_mem_filter he
    have hne : e.rowid ≠ nid := by
      simpa [bne_iff_ne] using List.of_mem_filter he
    obtain ⟨n, hn, hid⟩ := wf.fts_live e hmem
    refine ⟨n, List.mem_filter.mpr ⟨hn, ?_⟩, hid⟩
    simp only [bne_iff_ne, ne_eq, decide_not]
    simp [hid, hne]
  · exact wf.tags_lt
  · exact wf.tags_names

theorem wf_createNote (db : DB) (fid : Option Nat) (title : String) (now : Nat)
    (wf : WF db) : WF (applyOp db (.createNote fid title now)) := by
  cases h : folderIdOk db fid with
  | false =>
    simp only [applyOp, create_note, h, Bool.false_eq_true, if_false]
    exact wf
  | true =>
    simp only [applyOp, create_note, h, if_true]
    constructor
    · intro n hn
      rcases List.mem_append.mp hn with h1 | h1
      · exact Nat.lt_succ_of_lt (wf.notes_lt n h1)
      · simp only [List.mem_singleton] at h1
        rw [h1]
        exact Nat.lt_succ_self _
    · intro n hn
      rcases List.mem_append.mp hn with h1 | h1
      · show ((db.notes_fts ++ ([⟨db.next_note_id, title, ""⟩] : List FtsEntry)).filter
            fun e => e.rowid == n.id) = [⟨n.id, n.title, n.content⟩]
        rw [List.filter_append]
        have hne : (db.next_note_id == n.id) = false :=
          beq_eq_false_iff_ne.mpr fun he => Nat.ne_of_lt (wf.notes_lt n h1) he.symm
        have hnew : (([⟨db.next_note_id, title, ""⟩] : List FtsEntry).filter
            fun e => e.rowid == n.id) = [] := by simp [hne]
        rw [hnew, List.append_nil]
        exact wf.fts_one n h1
      · simp only [List.mem_singleton] at h1
        subst h1
        show ((db.notes_fts ++ ([⟨db.next_note_id, title, ""⟩] : List FtsEntry)).filter
            fun e => e.rowid == db.next_note_id) = [⟨db.next_note_id, title, ""⟩]
        rw [List.filter_append]
        have hold : (db.notes_fts.filter fun e => e.rowid == db.next_note_id) = [] := by
          apply List.filter_eq_nil_iff.mpr
          intro e he
          obtain ⟨m, hm, hid⟩ := wf.fts_live e he
          have hlt := wf.notes_lt m hm
          rw [hid] at hlt
          simp [Nat.ne_of_lt hlt]
        rw [hold]
        simp
    · intro e he
      rcases List.mem_append.mp he with h1 | h1
      · obtain ⟨n, hn, hid⟩ := wf.fts_live e h1
        exact ⟨n, List.mem_append_left _ hn, hid⟩
      · simp only [List.mem_singleton] at h1
        subst h1
        exact ⟨⟨db.next_note_id, fid, title, "", now, now⟩,
          List.mem_append_right _ (List.mem_singleton_self _), rfl⟩
    · exact wf.tags_lt
    · exact wf.tags_names

theorem wf_setNoteTags (db : DB) (nid : Nat) (names : List String) (wf : WF db) :
    WF (applyOp db (.setNoteTags nid names)) := by
  cases h : (db.notes.any fun n => n.id == nid) with
  | false =>
    simp only [applyOp, set_note_tags, h, Bool.false_eq_true, if_false]
    exact wf
  | true =>
    simp only [applyOp, set_note_tags, h, if_true]
    have hacq := acquireTags_spec ((names.map stripStr).filter fun n => n != "")
      db.tags db.next_tag_id wf.tags_lt wf.tags_names
    constructor
    · exact wf.notes_lt
    · exact wf.fts_one
    · exact wf.fts_live
    · intro t ht
      exact hacq.1 t (List.mem_of_mem_filter ht)
    · exact hacq.2.1.filter _

theorem wf_updateNote (db : DB) (nid : Nat) (title content : String)
    (fid : Option Nat) (now : Nat) (wf : WF db) :
    WF (applyOp db (.updateNote nid title content fid now)) := by
  cases h1 : (db.notes.any fun n => n.id == nid) with
  | false =>
    simp only [applyOp, update_note, h1, Bool.false_eq_true, if_false]
    exact wf
  | true =>
    cases h2 : folderIdOk db fid with
    | false =>
      simp only [applyOp, update_note, h1, if_true, h2, Bool.false_eq_true, if_false]
      exact wf
    | true =>
      simp only [applyOp, update_note, h1, if_true, h2]
      have hex : ∃ n ∈ db.notes, n.id = nid := by
        simpa [List.any_eq_true] using h1
      constructor
      · intro n hn
        obtain ⟨m, hm, rfl⟩ := List.mem_map.mp hn
        by_cases hmid : m.id = nid
        · simpa [hmid] using wf.notes_lt m hm
        · simpa [hmid] using wf.notes_lt m hm
      · intro n hn
        obtain ⟨m, hm, rfl⟩ := List.mem_map.mp hn
        by_cases hmid : m.id = nid
        · rw [if_pos hmid]
          show (ftsReplace db.notes_fts nid title content).filter
              (fun e => e.rowid == m.id) = [⟨m.id, title, content⟩]
          rw [hmid, filter_ftsReplace_self]
        · rw [if_neg hmid]
          show (ftsReplace db.notes_fts nid title content).filter
              (fun e => e.rowid == m.id) = [⟨m.id, m.title, m.content⟩]
          rw [filter_ftsReplace_other _ _ _ _ _ hmid]
          exact wf.fts_one m hm
      · intro e he
        unfold ftsReplace at he
        rcases List.mem_append.mp he with hh | hh
        · obtain ⟨m, hm, hid⟩ := wf.fts_live e (List.mem_of_mem_filter hh)
          refine ⟨_, List.mem_map_of_mem _ hm, ?_⟩
          by_cases hmid : m.id = nid
          · simpa [hmid] using hid
          · simpa [hmid] using hid
        · simp only [List.mem_singleton] at hh
          subst hh
          obtain ⟨m, hm, hid⟩ := hex
          refine ⟨_, List.mem_map_of_mem _ hm, ?_⟩
          simp [hid]
      · exact wf.tags_lt
      · exact wf.tags_names

theorem wf_moveNote (db : DB) (nid : Nat) (fid : Option Nat) (now : Nat)
    (wf : WF db) : WF (applyOp db (.moveNote nid fid now)) := by
  cases hf : db.notes.find? (fun n => n.id == nid) with
  | none =>
    simp only [applyOp, move_note, hf]
    exact wf
  | some n0 =>
    have hn0_mem : n0 ∈ db.notes := List.mem_of_find?_eq_some hf
    have hn0_id : n0.id = nid := by simpa using List.find?_some hf
    cases h2 : folderIdOk db fid with
    | false =>
      simp only [applyOp, move_note, hf, h2, Bool.false_eq_true, if_false]
      exact wf
    | true =>
      simp only [applyOp, move_note, hf, h2, if_true]
      constructor
      · intro n hn
        obtain ⟨m, hm, rfl⟩ := List.mem_map.mp hn
        by_cases hmid : m.id = nid
        · simpa [hmid] using wf.notes_lt m hm
        · simpa [hmid] using wf.notes_lt m hm
      · intro n hn
        obtain ⟨m, hm, rfl⟩ := List.mem_map.mp hn
        by_cases hmid : m.id = nid
        · rw [if_pos hmid]
          show (ftsReplace db.notes_fts nid n0.title n0.content).filter
              (fun e => e.rowid == m.id) = [⟨m.id, m.title, m.content⟩]
          have hag := fts_agree db.notes db.notes_fts wf.fts_one hm hn0_mem
            (by rw [hmid, hn0_id])
          rw [hmid, filter_ftsReplace_self, hag.1, hag.2]
        · rw [if_neg hmid]
          show (ftsReplace db.notes_fts nid n0.title n0.content).filter
              (fun e => e.rowid == m.id) = [⟨m.id, m.title, m.content⟩]
          rw [filter_ftsReplace_other _ _ _ _ _ hmid]
          exact wf.fts_one m hm
      · intro e he
        unfold ftsReplace at he
        rcases List.mem_append.mp he with hh | hh
        · obtain ⟨m, hm, hid⟩ := wf.fts_live e (List.mem_of_mem_filter hh)
          refine ⟨_, List.mem_map_of_mem _ hm, ?_⟩
          by_cases hmid : m.id = nid
          · simpa [hmid] using hid
          · simpa [hmid] using hid
        · simp only [List.mem_singleton] at hh
          subst hh
          refine ⟨_, List.mem_map_of_mem _ hn0_mem, ?_⟩
          simp [hn0_id]
      · exact wf.tags_lt
      · exact wf.tags_names

theorem wf_deleteFolder (db : DB) (fid : Nat) (wf : WF db) :
    WF (applyOp db (.deleteFolder fid)) := by
  show WF (delete_folder db fid)
  have hfold := ftsProps_fold db.notes (db.notes.filter fun n => n.folder_id == some fid)
    db.notes_fts wf.fts_one wf.fts_live (fun x hx => List.mem_of_mem_filter hx)
  constructor
  · intro n hn
    obtain ⟨m, hm, rfl⟩ := List.mem_map.mp hn
    by_cases hmf : m.folder_id = some fid
    · simpa [hmf] using wf.notes_lt m hm
    · simpa [hmf] using wf.notes_lt m hm
  · intro n hn
    obtain ⟨m, hm, rfl⟩ := List.mem_map.mp hn
    by_cases hmf : m.folder_id = some fid
    · rw [if_pos hmf]
      exact hfold.1 m hm
    · rw [if_neg hmf]
      exact hfold.1 m hm
  · intro e he
    obtain ⟨m, hm, hid⟩ := hfold.2 e he
    refine ⟨_, List.mem_map_of_mem _ hm, ?_⟩
    by_cases hmf : m.folder_id = some fid
    · simpa [hmf] using hid
    · simpa [hmf] using hid
  · exact wf.tags_lt
  · exact wf.tags_names

theorem wf_applyOp (db : DB) (op : Op) (wf : WF db) : WF (applyOp db op) := by
  cases op with
  | createFolder name => exact wf_createFolder db name wf
  | deleteFolder fid => exact wf_deleteFolder db fid wf
  | createNote fid title now => exact wf_createNote db fid title now wf
  | updateNote nid title content fid now => exact wf_updateNote db nid title content fid now wf
  | deleteNote nid => exact wf_deleteNote db nid wf
  | setNoteTags nid names => exact wf_setNoteTags db nid names wf
  | moveNote nid fid now => exact wf_moveNote db nid fid now wf

theorem wf_foldl (ops : List Op) : ∀ (db : DB), WF db → WF (ops.foldl applyOp db) := by
  induction ops with
  | nil => exact fun _ wf => wf
  | cons op rest ih => exact fun db wf => ih (applyOp db op) (wf_applyOp db op wf)

/-- Every store reachable by a finite call sequence from a fresh database is
well-formed. -/
theorem wf_applyOps (ops : List Op) : WF (applyOps ops) :=
  wf_foldl ops initDB wf_initDB

/-! ## Claims -/

/-- C5: for every query string — quotes, FTS operator syntax and other special
characters included — the search pipeline without its `try/except` still
succeeds (the escaping neutralises every special character), and therefore
`search_notes` returns its result list instead of propagating an error; had
the index query been structurally malformed, the `except` branch would have
returned the empty list. -/
theorem c5_search_never_raises (db : DB) (fid : Option Nat) (q : String)
    (tids : List Nat) :
    search_notes_exc db fid q tids = .ok (search_notes db fid q tids) := by
  unfold search_notes search_notes_exc
  rw [textClause_eq]

/-- C6: deleting a folder deletes no note — every note survives with its
other fields unchanged and a reference to the deleted folder cleared to
`none` — and the folder is gone from the folder listing. -/
theorem c6_delete_folder_frame (db : DB) (fid : Nat) :
    (delete_folder db fid).notes.length = db.notes.length ∧
    (∀ n ∈ db.notes,
      (if n.folder_id = some fid then { n with folder_id := none } else n) ∈
        (delete_folder db fid).notes) ∧
    ∀ f ∈ list_folders (delete_folder db fid), f.id ≠ fid := by
  refine ⟨by simp [delete_folder], ?_, ?_⟩
  · intro n hn
    exact List.mem_map_of_mem _ hn
  · intro f hf
    simp [list_folders, List.mem_insertionSort, delete_folder, List.mem_filter,
      bne_iff_ne] at hf
    exact hf.2

/-- Witness for C6: deleting folder 1 keeps its note, with the folder
reference cleared. -/
theorem c6_delete_folder_frame_witness :
    (⟨1, some 1, "a", "", 1, 1⟩ : Note) ∈
      (applyOps [Op.createFolder "F", Op.createNote (some 1) "a" 1]).notes ∧
    (⟨1, none, "a", "", 1, 1⟩ : Note) ∈
      (delete_folder (applyOps [Op.createFolder "F", Op.createNote (some 1) "a" 1]) 1).notes :=
  ⟨by decide,
   (c6_delete_folder_frame (applyOps [Op.createFolder "F", Op.createNote (some 1) "a" 1]) 1).2.1
     ⟨1, some 1, "a", "", 1, 1⟩ (by decide)⟩

/-- C8 (amended): at creation `created_at = updated_at = now`; an update
leaves `created_at` untouched and stamps `updated_at` with the call's current
time — so `updated_at` strictly increases exactly when the clock advanced
past the note's previous `updated_at`, but an update within the same second
leaves it equal (see the counterexample). -/
theorem c8_timestamps (db : DB) (fid : Option Nat) (title content : String)
    (now nid : Nat) :
    (∀ db2 rid, create_note db fid title now = .ok (db2, rid) →
        (⟨rid, fid, title, "", now, now⟩ : Note) ∈ db2.notes) ∧
    (∀ n ∈ db.notes, n.id = nid → folderIdOk db fid = true →
        (⟨nid, fid, title, content, n.created_at, now⟩ : Note) ∈
          (applyOp db (.updateNote nid title content fid now)).notes) := by
  constructor
  · intro db2 rid h
    unfold create_note at h
    split at h
    · simp only [Except.ok.injEq, Prod.mk.injEq] at h
      obtain ⟨h1, h2⟩ := h
      subst h1; subst h2
      simp
    · cases h
  · intro n hn hid hok
    have hany : (db.notes.any fun m => m.id == nid) = true := by
      simp only [List.any_eq_true]
      exact ⟨n, hn, by simp [hid]⟩
    simp only [applyOp, update_note, hany, hok, if_true]
    simpa [hid] using List.mem_map_of_mem
      (fun m => if m.id = nid then
        { m with title := title, content := content, folder_id := fid, updated_at := now }
       else m) hn

/-- Witness for C8: the created note carries `created_at = updated_at = 5`;
updating it at time 9 keeps `created_at = 5` and stamps `updated_at = 9`. -/
theorem c8_timestamps_witness :
    (⟨1, none, "t", "", 5, 5⟩ : Note) ∈ (applyOps [Op.createNote none "t" 5]).notes ∧
    (⟨1, none, "t2", "b", 5, 9⟩ : Note) ∈
      (applyOp (applyOps [Op.createNote none "t" 5]) (.updateNote 1 "t2" "b" none 9)).notes :=
  ⟨by decide,
   (c8_timestamps (applyOps [Op.createNote none "t" 5]) none "t2" "b" 9 1).2
     ⟨1, none, "t", "", 5, 5⟩ (by decide) rfl rfl⟩

/-- Counterexample to C8 as stated: timestamps have second resolution, so a
body update within the same second (`now = 5` twice) leaves `updated_at`
at 5 — it does not strictly increase. -/
theorem c8_counterexample :
    (applyOps [Op.createNote none "t" 5]).notes.map Note.updated_at = [5] ∧
    (applyOps [Op.createNote none "t" 5,
               Op.updateNote 1 "t" "body" none 5]).notes.map Note.updated_at = [5] := by
  decide

/-- C9 (amended): creating a folder whose name exactly equals an existing
folder's name raises `sqlite3.IntegrityError` (the `UNIQUE` constraint; the
spec's `DuplicateNameError` taxonomy name) and leaves the store untouched;
uniqueness is case-sensitive, so names differing only in case do not collide
(see the counterexample). -/
theorem c9_exact_duplicate_folder (db : DB) (name : String)
    (h : ∃ f ∈ db.folders, f.name = name) :
    create_folder db name = .error .integrityError ∧
    applyOp db (.createFolder name) = db := by
  obtain ⟨f, hf, he⟩ := h
  have hany : (db.folders.any fun g => g.name == name) = true := by
    simp only [List.any_eq_true]
    exact ⟨f, hf, by simp [he]⟩
  constructor
  · simp [create_folder, hany]
  · simp [applyOp, create_folder, hany]

/-- Witness for C9: recreating the exact name `A` fails and changes
nothing. -/
theorem c9_exact_duplicate_folder_witness :
    (∃ f ∈ (applyOps [Op.createFolder "A"]).folders, f.name = "A") ∧
    create_folder (applyOps [Op.createFolder "A"]) "A" = .error .integrityError ∧
    applyOp (applyOps [Op.createFolder "A"]) (.createFolder "A") =
      applyOps [Op.createFolder "A"] :=
  ⟨⟨⟨1, "A"⟩, by decide, rfl⟩,
   c9_exact_duplicate_folder (applyOps [Op.createFolder "A"]) "A"
     ⟨⟨1, "A"⟩, by decide, rfl⟩⟩

/-- Counterexample to C9 as stated: `folders.name` is `UNIQUE` under the
BINARY collation, so the case-insensitively colliding name `a` is accepted
next to `A` instead of failing — no error is raised and both folders exist. -/
theorem c9_counterexample :
    (create_folder (applyOps [Op.createFolder "A"]) "a").isOk = true ∧
    (applyOps [Op.createFolder "A", Op.createFolder "a"]).folders.map Folder.name
      = ["A", "a"] ∧
    "A" ≠ "a" ∧ lowerStr "A" = lowerStr "a" := by
  decide

/-- C4: with a duplicate-free set of tag identifiers, the HAVING-count tag
filter of `search_notes` is exactly "the note carries all the given tag
identifiers" — the whole search (other filters, ordering, cap and enrichment
untouched) coincides with the pipeline using the carries-all filter. -/
theorem c4_tag_filter_and_semantics (db : DB) (fid : Option Nat) (q : String)
    (tids : List Nat) (h : tids.Nodup) :
    search_notes db fid q tids = search_notes_spec db fid q tids := by
  unfold search_notes search_notes_exc search_notes_spec
  rw [textClause_eq]
  show runSearch db (searchPass db fid _ tids) = runSearch db (searchPassSpec db fid _ tids)
  congr 1
  funext n
  unfold searchPass searchPassSpec
  rw [tagClausePass_eq_tagAllPass db tids n.id h]

/-- Witness for C4: among notes tagged `{A}`, `{A, B}`, `{B}` (tag ids 1, 2),
the filter `[1, 2]` matches the HAVING-count semantics and returns only the
`{A, B}` note. -/
theorem c4_tag_filter_and_semantics_witness :
    List.Nodup [1, 2] ∧
    (search_notes (applyOps [Op.createNote none "n1" 1, Op.createNote none "n2" 2,
        Op.createNote none "n3" 3, Op.setNoteTags 1 ["A"], Op.setNoteTags 2 ["A", "B"],
        Op.setNoteTags 3 ["B"]]) none "" [1, 2] =
      search_notes_spec (applyOps [Op.createNote none "n1" 1, Op.createNote none "n2" 2,
        Op.createNote none "n3" 3, Op.setNoteTags 1 ["A"], Op.setNoteTags 2 ["A", "B"],
        Op.setNoteTags 3 ["B"]]) none "" [1, 2]) ∧
    (search_notes (applyOps [Op.createNote none "n1" 1, Op.createNote none "n2" 2,
        Op.createNote none "n3" 3, Op.setNoteTags 1 ["A"], Op.setNoteTags 2 ["A", "B"],
        Op.setNoteTags 3 ["B"]]) none "" [1, 2]).map NoteResult.id = [2] :=
  ⟨by decide,
   c4_tag_filter_and_semantics (applyOps [Op.createNote none "n1" 1, Op.createNote none "n2" 2,
     Op.createNote none "n3" 3, Op.setNoteTags 1 ["A"], Op.setNoteTags 2 ["A", "B"],
     Op.setNoteTags 3 ["B"]]) none "" [1, 2] (by decide),
   by decide⟩

/-- C10: a duplicated identifier in the tag filter makes the HAVING-count
constraint unsatisfiable — the distinct matching links of a note cannot reach
the length of the list — so every such search returns the empty list. -/
theorem c10_duplicate_tag_ids_empty (db : DB) (fid : Option Nat) (q : String)
    (tids : List Nat) (h : ¬ tids.Nodup) :
    search_notes db fid q tids = [] := by
  rw [search_notes_eq_run]
  generalize (if q = "" then none
    else some (ftsMatchRowids db.notes_fts (buildFtsQuery q))) = tix
  unfold runSearch
  have hne : tids.isEmpty = false := by
    cases tids with
    | nil => exact absurd List.nodup_nil h
    | cons a t => rfl
  have hfil : db.notes.filter (searchPass db fid tix tids) = [] := by
    apply List.filter_eq_nil_iff.mpr
    intro n hn
    simp [searchPass, hne, tagClausePass_of_dup db tids n.id h]
  rw [hfil]
  rfl

/-- Witness for C10: note 1 carries tag 1, yet searching with the duplicated
filter `[1, 1]` returns nothing. -/
theorem c10_duplicate_tag_ids_empty_witness :
    ¬ List.Nodup [1, 1] ∧
    ((1, 1) ∈ (applyOps [Op.createNote none "n1" 1, Op.setNoteTags 1 ["A"]]).note_tags) ∧
    search_notes (applyOps [Op.createNote none "n1" 1, Op.setNoteTags 1 ["A"]])
      none "" [1, 1] = [] :=
  ⟨by decide, by decide,
   c10_duplicate_tag_ids_empty (applyOps [Op.createNote none "n1" 1, Op.setNoteTags 1 ["A"]])
     none "" [1, 1] (by decide)⟩

/-- C7: every search returns at most 1000 rows, ordered by `updated_at`
descending (stable among ties), and the no-filter search is exactly the
sorted full note table capped at 1000 — in particular all stored notes when
there are at most 1000 of them. -/
theorem c7_search_order_and_cap (db : DB) (fid : Option Nat) (q : String)
    (tids : List Nat) :
    (search_notes db fid q tids).length ≤ 1000 ∧
    List.Pairwise (fun a b : NoteResult => b.updated_at ≤ a.updated_at)
      (search_notes db fid q tids) ∧
    search_notes db none "" [] =
      ((List.insertionSort updDesc db.notes).take 1000).map
        (fun n => ⟨n.id, n.title, n.content, n.folder_id, n.updated_at,
                   noteTagsSorted db n.id⟩) ∧
    (db.notes.length ≤ 1000 → (search_notes db none "" []).length = db.notes.length) := by
  have hall : db.notes.filter (searchPass db none none []) = db.notes :=
    List.filter_eq_self.mpr fun n _ => by simp [searchPass]
  have hmain : search_notes db none "" [] =
      ((List.insertionSort updDesc db.notes).take 1000).map
        (fun n => (⟨n.id, n.title, n.content, n.folder_id, n.updated_at,
                    noteTagsSorted db n.id⟩ : NoteResult)) := by
    rw [search_notes_eq_run]
    show runSearch db (searchPass db none none []) = _
    unfold runSearch
    rw [hall]
  refine ⟨?_, ?_, hmain, ?_⟩
  · rw [search_notes_eq_run]
    unfold runSearch
    simp only [List.length_map, List.length_take]
    exact min_le_left _ _
  · rw [search_notes_eq_run]
    unfold runSearch
    apply List.pairwise_map.mpr
    exact ((List.sorted_insertionSort updDesc _).sublist (List.take_sublist _ _))
  · intro hle
    rw [hmain]
    simp only [List.length_map, List.length_take, List.length_insertionSort]
    exact min_eq_right hle

/-- Witness for C7: a two-note store is returned in full by the unfiltered
search (the cap is not reached). -/
theorem c7_search_order_and_cap_witness :
    (applyOps [Op.createNote none "a" 1, Op.createNote none "b" 2]).notes.length ≤ 1000 ∧
    (search_notes (applyOps [Op.createNote none "a" 1, Op.createNote none "b" 2])
        none "" []).length =
      (applyOps [Op.createNote none "a" 1, Op.createNote none "b" 2]).notes.length :=
  ⟨by decide,
   (c7_search_order_and_cap (applyOps [Op.createNote none "a" 1, Op.createNote none "b" 2])
      none "" []).2.2.2 (by decide)⟩

/-- C1: after any finite sequence of calls on a fresh store, every live note
has exactly one index entry — the filter of `notes_fts` by its rowid is the
one entry holding the note's current title and content — and no entry remains
for a deleted note: every entry's rowid belongs to a live note.  The triggers
(`notes_ai` appends, `notes_au` removes then appends, `notes_ad` removes)
maintain this as a side effect of each note mutation. -/
theorem c1_fts_index_invariant (ops : List Op) :
    (∀ n ∈ (applyOps ops).notes,
      (applyOps ops).notes_fts.filter (fun e => e.rowid == n.id) =
        [⟨n.id, n.title, n.content⟩]) ∧
    ∀ e ∈ (applyOps ops).notes_fts, ∃ n ∈ (applyOps ops).notes, n.id = e.rowid :=
  ⟨(wf_applyOps ops).fts_one, (wf_applyOps ops).fts_live⟩

/-- Witness for C1: one created note, its single index entry. -/
theorem c1_fts_index_invariant_witness :
    (⟨1, none, "t", "", 3, 3⟩ : Note) ∈ (applyOps [Op.createNote none "t" 3]).notes ∧
    (applyOps [Op.createNote none "t" 3]).notes_fts.filter
      (fun e => e.rowid == (⟨1, none, "t", "", 3, 3⟩ : Note).id) = [⟨1, "t", ""⟩] :=
  ⟨by decide,
   (c1_fts_index_invariant [Op.createNote none "t" 3]).1
     ⟨1, none, "t", "", 3, 3⟩ (by decide)⟩

/-- C2 (amended): tag-name uniqueness is case-sensitive, not case-insensitive:
after any call sequence no two tags share the exact same name, and a
`set_note_tags` name exactly equal to an existing tag's name reuses that
tag's identifier (the note ends up linked to it); names differing only in
letter case coexist as distinct tags (see the counterexample). -/
theorem c2_tag_names_exact_unique (ops : List Op) (nid : Nat) (names : List String)
    (t : Tag) :
    ((applyOps ops).tags.Pairwise fun a b => a.name ≠ b.name) ∧
    (t ∈ (applyOps ops).tags →
      t.name ∈ (names.map stripStr).filter (fun n => n != "") →
      ((applyOps ops).notes.any fun n => n.id == nid) = true →
      (nid, t.id) ∈ (applyOp (applyOps ops) (.setNoteTags nid names)).note_tags) := by
  have wf := wf_applyOps ops
  refine ⟨wf.tags_names, ?_⟩
  intro ht hnm hany
  have hacq := acquireTags_spec ((names.map stripStr).filter fun n => n != "")
    (applyOps ops).tags (applyOps ops).next_tag_id wf.tags_lt wf.tags_names
  simp only [applyOp, set_note_tags, hany, if_true]
  exact insertLinks_mem_of_mem nid _ _ t.id (hacq.2.2.2 t ht hnm)

/-- Witness for C2: re-sending the exact name `x` links the note to the
existing tag id 1 instead of creating a new tag. -/
theorem c2_tag_names_exact_unique_witness :
    (⟨1, "x"⟩ : Tag) ∈ (applyOps [Op.createNote none "" 0, Op.setNoteTags 1 ["x"]]).tags ∧
    (1, 1) ∈ (applyOp (applyOps [Op.createNote none "" 0, Op.setNoteTags 1 ["x"]])
        (.setNoteTags 1 ["x"])).note_tags :=
  ⟨by decide,
   (c2_tag_names_exact_unique [Op.createNote none "" 0, Op.setNoteTags 1 ["x"]]
      1 ["x"] ⟨1, "x"⟩).2 (by decide) (by decide) (by decide)⟩

/-- Counterexample to C2 as stated: `tags.name` is `UNIQUE` under the BINARY
collation and the reuse lookup is an exact `=` match, so `Tag` and `tag` —
equal under ASCII case folding — end up as two distinct stored tags. -/
theorem c2_counterexample :
    (applyOps [Op.createNote none "" 0, Op.createNote none "" 0,
       Op.setNoteTags 1 ["Tag"], Op.setNoteTags 2 ["tag"]]).tags.map Tag.name
      = ["Tag", "tag"] ∧
    "Tag" ≠ "tag" ∧ lowerStr "Tag" = lowerStr "tag" := by
  decide

/-- C3 (amended): the orphan sweep is a consequence of `set_note_tags` only —
after any completed `set_note_tags` call every stored tag still has at least
one link, so no zero-usage tag appears in `all_tags`; deleting a note does
not sweep, so a tag orphaned by `delete_note` stays visible with usage
count 0 (see the counterexample). -/
theorem c3_sweep_after_set_note_tags (db : DB) (nid : Nat) (names : List String)
    (h : (db.notes.any fun n => n.id == nid) = true) :
    (∀ t ∈ (applyOp db (.setNoteTags nid names)).tags,
      ((applyOp db (.setNoteTags nid names)).note_tags.any fun p => p.2 == t.id) = true) ∧
    ∀ x ∈ all_tags (applyOp db (.setNoteTags nid names)), 0 < x.2 := by
  simp only [applyOp, set_note_tags, h, if_true]
  constructor
  · intro t ht
    unfold clean_unused_tags at ht
    have h2 := List.of_mem_filter ht
    exact h2
  · intro x hx
    unfold all_tags at hx
    obtain ⟨t, hts, rfl⟩ := List.mem_map.mp hx
    have ht := (List.mem_insertionSort tagNameLe).mp hts
    unfold clean_unused_tags at ht
    have hany := List.of_mem_filter ht
    obtain ⟨p, hp, hpt⟩ := List.any_eq_true.mp hany
    exact List.length_pos.mpr (List.ne_nil_of_mem (List.mem_filter.mpr ⟨hp, hpt⟩))

/-- Witness for C3: after `set_note_tags 1 ["a"]` the tag `a` is linked. -/
theorem c3_sweep_after_set_note_tags_witness :
    ((applyOps [Op.createNote none "" 0]).notes.any fun n => n.id == 1) = true ∧
    ((applyOp (applyOps [Op.createNote none "" 0]) (.setNoteTags 1 ["a"])).note_tags.any
      fun p => p.2 == (⟨1, "a"⟩ : Tag).id) = true :=
  ⟨by decide,
   (c3_sweep_after_set_note_tags (applyOps [Op.createNote none "" 0]) 1 ["a"]
      (by decide)).1 ⟨1, "a"⟩ (by decide)⟩

/-- Counterexample to C3 as stated: deleting the only note referencing tag
`a` cascades the link away but runs no sweep — the tag remains stored and
appears in `all_tags` with usage count 0. -/
theorem c3_counterexample :
    (applyOps [Op.createNote none "" 0, Op.setNoteTags 1 ["a"], Op.deleteNote 1]).tags
      = [⟨1, "a"⟩] ∧
    all_tags (applyOps [Op.createNote none "" 0, Op.setNoteTags 1 ["a"], Op.deleteNote 1])
      = [(⟨1, "a"⟩, 0)] := by
  decide

end SmartNotes
